import Mathlib

/-!
Verification development for the LIP repository (`Logisim_Importer_Project.py`).

The program moves `<circuit>` elements between two XML documents parsed with
`xml.etree.ElementTree`.  We embed the XML trees as a nested inductive
`Element` (tag, attribute list, ordered children) and translate the methods of
`CircuitTransfer` into pure functions over a `TransferState` holding the source
and destination roots.  Python exceptions become an explicit error component:
`copy_to_dst` returns the (possibly unchanged) state together with
`Option TransferError`, mirroring the fact that in the Python code every
failure point precedes the first mutation of `self.dst_root`.

`ElementTree.find` is called only on paths of the shape
`./circuit[@name='N']` built by an f-string.  For that family, CPython's
`ElementPath` predicate parser accepts exactly the names with no apostrophe
(the value sits inside a `'...'` literal, whose lexer regex is a
single-quoted-string token); a name containing an apostrophe mis-tokenises the
predicate and `find` raises `SyntaxError("invalid predicate")`.  `findTopCircuit`
embeds this: it errors on names containing an apostrophe and otherwise returns
the first direct child with tag `circuit` whose `name` attribute equals the
given string.
-/

namespace LIP

/-- The apostrophe character (written by code point to keep source clean). -/
def apos : Char := Char.ofNat 39

/-- The double-quote character. -/
def dquote : Char := Char.ofNat 34

/-- Whether a string contains an apostrophe (the only character that breaks
the `./circuit[@name='...']` XPath predicate built by the f-strings in
`get_src_circuit` / `get_dst_circuit`). -/
def hasApos (s : String) : Bool := s.toList.any (fun c => c == apos)

/-- An XML element as `xml.etree.ElementTree` presents it: a tag, an ordered
attribute mapping (Python dict preserving insertion order, keys unique), and an
ordered list of child elements. -/
inductive Element : Type where
  | mk (tag : String) (attrs : List (String × String)) (children : List Element)

/-- Tag of an element. -/
def Element.tag : Element → String
  | .mk t _ _ => t

/-- Attribute list of an element. -/
def Element.attrs : Element → List (String × String)
  | .mk _ a _ => a

/-- Children list of an element. -/
def Element.children : Element → List Element
  | .mk _ _ c => c

/-- `elem.get(key)`: first binding of `key` in the attribute list, if any. -/
def Element.getAttr (e : Element) (k : String) : Option String :=
  match e.attrs.find? (fun kv => kv.fst == k) with
  | some kv => some kv.snd
  | none => none

/-- Update a key in an ordered attribute list, Python-dict style: an existing
key keeps its position and gets the new value, a fresh key is appended. -/
def setPairs (k v : String) : List (String × String) → List (String × String)
  | [] => [(k, v)]
  | kv :: rest => if kv.fst == k then (k, v) :: rest else kv :: setPairs k v rest

/-- `elem.set(key, value)`. -/
def Element.set (e : Element) (k v : String) : Element :=
  .mk e.tag (setPairs k v e.attrs) e.children

/-- The match predicate of the XPath `./circuit[@name='n']`: tag equals
`circuit` and the `name` attribute equals `n` (exact, case-sensitive). -/
def circNamedB (n : String) (e : Element) : Bool :=
  e.tag == "circuit" && e.getAttr "name" == some n

/-- Names of the `circuit`-tagged elements of a list that carry a `name`
attribute, in order. -/
def circuitNames (l : List Element) : List String :=
  l.filterMap (fun e => if e.tag == "circuit" then e.getAttr "name" else none)

/-- Name attributes of all elements of a list, in order (tag-independent). -/
def childNames (l : List Element) : List String :=
  l.filterMap (fun e => e.getAttr "name")

/-- Whether some direct child is a `circuit` named `n`. -/
def resolves (root : Element) (n : String) : Bool :=
  root.children.any (circNamedB n)

/-- The Python exceptions `copy_to_dst` can raise: `SyntaxError` escaping from
`ElementTree.find` on a malformed predicate, and
`ValueError(f"Circuit '{name}' not found in source")`. -/
inductive TransferError : Type where
  | xpathError : TransferError
  | circuitNotFound (name : String) : TransferError
deriving DecidableEq

/-- `root.find(f"./circuit[@name='{nm}']")`: `SyntaxError` when `nm` contains
an apostrophe (broken string literal in the predicate), otherwise the first
direct child with tag `circuit` and `name` attribute equal to `nm`, or the
not-found signal `none`. -/
def findTopCircuit (root : Element) (nm : String) : Except TransferError (Option Element) :=
  if hasApos nm then .error .xpathError
  else .ok (root.children.find? (circNamedB nm))

/-- The mutable state of a `CircuitTransfer` object: the source and
destination document roots (`self.src_root`, `self.dst_root`). -/
structure TransferState where
  src : Element
  dst : Element

/-- `get_src_circuit`. -/
def get_src_circuit (st : TransferState) (name : String) : Except TransferError (Option Element) :=
  findTopCircuit st.src name

/-- `get_dst_circuit`. -/
def get_dst_circuit (st : TransferState) (name : String) : Except TransferError (Option Element) :=
  findTopCircuit st.dst name

/-- Append a child at the end of an element's children. -/
def Element.appendChild (e : Element) (c : Element) : Element :=
  .mk e.tag e.attrs (e.children ++ [c])

/-- Remove the first `circuit` child named `n`, if any
(`ElementTree.Element.remove` deletes the identical node object, which is the
first match returned by `find`, i.e. `List.eraseP`). -/
def Element.removeCircuit (e : Element) (n : String) : Element :=
  .mk e.tag e.attrs (e.children.eraseP (circNamedB n))

/-- The name the clone ends up with: `new_name if new_name is not None else name`. -/
def finalNameOf (name : String) (new_name : Option String) : String :=
  new_name.getD name

/-- The clone after the optional rename step (`clone.set("name", new_name)`). -/
def cloneOf (c : Element) (new_name : Option String) : Element :=
  match new_name with
  | some nn => c.set "name" nn
  | none => c

/-- `copy_to_dst(name, new_name)`.  Returns the state after the call together
with the exception, if one was raised.  In the Python method the only
mutations of `self` are the final `remove`/`append` on `self.dst_root`, so on
every failure path the state is returned untouched, exactly as in the source:
locate in source (may raise `SyntaxError`, or `ValueError` when absent),
deep-copy the found circuit (`copy.deepcopy`: a structurally equal
independent tree, hence the same `Element` value here), optionally rename the
clone, locate a same-named circuit in the destination (may raise
`SyntaxError` when the final name has an apostrophe), remove it when present,
and append the clone. -/
def copy_to_dst (st : TransferState) (name : String) (new_name : Option String) :
    TransferState × Option TransferError :=
  match get_src_circuit st name with
  | .error _ => (st, some .xpathError)
  | .ok none => (st, some (.circuitNotFound name))
  | .ok (some src_circuit) =>
    let clone := cloneOf src_circuit new_name
    let final_name := finalNameOf name new_name
    match findTopCircuit st.dst final_name with
    | .error _ => (st, some .xpathError)
    | .ok dst_existing =>
      let base : Element :=
        match dst_existing with
        | some _ => st.dst.removeCircuit final_name
        | none => st.dst
      ({ st with dst := base.appendChild clone }, none)

/-- The batch loop of `main`: `for circ_name in picked: transfer.copy_to_dst(circ_name)`.
An exception aborts the remaining names; the state at the abort is returned
together with the error. -/
def runBatch (st : TransferState) : List String → TransferState × Option TransferError
  | [] => (st, none)
  | n :: rest =>
    match copy_to_dst st n none with
    | (st1, none) => runBatch st1 rest
    | (st1, some e) => (st1, some e)

/-! Basic facts about the embedded data model. -/

theorem Element.eta (e : Element) : Element.mk e.tag e.attrs e.children = e := by
  cases e
  rfl

theorem Element.tag_set (e : Element) (k v : String) : (e.set k v).tag = e.tag := rfl

theorem Element.children_set (e : Element) (k v : String) :
    (e.set k v).children = e.children := rfl

theorem find?_setPairs_same (k v : String) (l : List (String × String)) :
    (setPairs k v l).find? (fun kv => kv.fst == k) = some (k, v) := by
  induction l with
  | nil => simp [setPairs]
  | cons kv rest ih =>
    by_cases h : kv.fst = k
    · simp [setPairs, h]
    · simp only [setPairs, beq_iff_eq, h, if_false]
      rw [List.find?_cons_of_neg]
      · exact ih
      · simp [h]

theorem find?_setPairs_ne (k v k2 : String) (hne : k2 ≠ k) (l : List (String × String)) :
    (setPairs k v l).find? (fun kv => kv.fst == k2) = l.find? (fun kv => kv.fst == k2) := by
  induction l with
  | nil => simp [setPairs, hne.symm]
  | cons kv rest ih =>
    by_cases h : kv.fst = k
    · simp only [setPairs, beq_iff_eq, h, if_true]
      rw [List.find?_cons_of_neg, List.find?_cons_of_neg]
      · simp [h, hne.symm]
      · simp [hne.symm]
    · simp only [setPairs, beq_iff_eq, h, if_false]
      by_cases h2 : kv.fst = k2
      · rw [List.find?_cons_of_pos, List.find?_cons_of_pos] <;> simp [h2]
      · rw [List.find?_cons_of_neg, List.find?_cons_of_neg]
        · exact ih
        · simp [h2]
        · simp [h2]

theorem Element.getAttr_set_same (e : Element) (k v : String) :
    (e.set k v).getAttr k = some v := by
  show Element.getAttr (.mk e.tag (setPairs k v e.attrs) e.children) k = some v
  unfold Element.getAttr
  simp only [Element.attrs]
  rw [find?_setPairs_same]

theorem Element.getAttr_set_ne (e : Element) (k v k2 : String) (h : k2 ≠ k) :
    (e.set k v).getAttr k2 = e.getAttr k2 := by
  show Element.getAttr (.mk e.tag (setPairs k v e.attrs) e.children) k2 = _
  unfold Element.getAttr
  simp only [Element.attrs]
  rw [find?_setPairs_ne k v k2 h]

/-- The clone carries the final name as its `name` attribute and the tag
`circuit`, provided the source circuit matched `circNamedB n`. -/
theorem circNamedB_cloneOf (n : String) (nn : Option String) (c : Element)
    (hc : circNamedB n c = true) : circNamedB (finalNameOf n nn) (cloneOf c nn) = true := by
  have ht : c.tag = "circuit" := by
    have := (Bool.and_eq_true _ _).mp hc
    simpa using this.left
  cases nn with
  | none => simpa [finalNameOf, cloneOf]
  | some s =>
    simp only [finalNameOf, cloneOf, Option.getD, circNamedB]
    rw [Element.tag_set, Element.getAttr_set_same]
    simp [ht]

theorem mem_circuitNames_of (n : String) (l : List Element) (x : Element)
    (hx : x ∈ l) (hpx : circNamedB n x = true) : n ∈ circuitNames l := by
  have hand := (Bool.and_eq_true _ _).mp hpx
  have ht : x.tag = "circuit" := by simpa using hand.left
  have hn : x.getAttr "name" = some n := by simpa using hand.right
  unfold circuitNames
  rw [List.mem_filterMap]
  exact ⟨x, hx, by simp [ht, hn]⟩

theorem find?_circNamedB_eq_none (n : String) (l : List Element)
    (h : n ∉ circuitNames l) : l.find? (circNamedB n) = none := by
  rw [List.find?_eq_none]
  intro x hx hpx
  exact h (mem_circuitNames_of n l x hx hpx)

theorem filter_circNamedB_eq_nil (n : String) (l : List Element)
    (h : n ∉ circuitNames l) : l.filter (circNamedB n) = [] := by
  rw [List.filter_eq_nil_iff]
  intro x hx hpx
  exact h (mem_circuitNames_of n l x hx hpx)

theorem eraseP_eq_self_of_find?_none {p : Element → Bool} {l : List Element}
    (h : l.find? p = none) : l.eraseP p = l := by
  apply List.eraseP_of_forall_not
  intro a ha
  exact List.find?_eq_none.mp h a ha

/-- Erasing the first `circuit` child named `n` erases exactly the first
occurrence of `n` from the circuit-name listing. -/
theorem circuitNames_eraseP (n : String) (l : List Element) :
    circuitNames (l.eraseP (circNamedB n)) = (circuitNames l).erase n := by
  induction l with
  | nil => simp [circuitNames]
  | cons c cs ih =>
    by_cases hpc : circNamedB n c = true
    · have hand := (Bool.and_eq_true _ _).mp hpc
      have ht : c.tag = "circuit" := by simpa using hand.left
      have hn : c.getAttr "name" = some n := by simpa using hand.right
      rw [List.eraseP_cons_of_pos hpc]
      have hnames : circuitNames (c :: cs) = n :: circuitNames cs := by
        simp [circuitNames, ht, hn]
      rw [hnames, List.erase_cons_head]
    · rw [List.eraseP_cons_of_neg hpc]
      by_cases ht : c.tag = "circuit"
      · cases hn : c.getAttr "name" with
        | none =>
          have hcc : circuitNames (c :: cs) = circuitNames cs := by
            simp [circuitNames, ht, hn]
          have hcc2 : circuitNames (c :: cs.eraseP (circNamedB n))
              = circuitNames (cs.eraseP (circNamedB n)) := by
            simp [circuitNames, ht, hn]
          rw [hcc, hcc2, ih]
        | some m =>
          have hmn : m ≠ n := by
            intro hEq
            apply hpc
            simp [circNamedB, ht, hn, hEq]
          have hcc : circuitNames (c :: cs) = m :: circuitNames cs := by
            simp [circuitNames, ht, hn]
          have hcc2 : circuitNames (c :: cs.eraseP (circNamedB n))
              = m :: circuitNames (cs.eraseP (circNamedB n)) := by
            simp [circuitNames, ht, hn]
          rw [hcc, hcc2, ih, List.erase_cons_tail]
          simp [hmn]
      · have hcc : circuitNames (c :: cs) = circuitNames cs := by
          simp [circuitNames, ht]
        have hcc2 : circuitNames (c :: cs.eraseP (circNamedB n))
            = circuitNames (cs.eraseP (circNamedB n)) := by
          simp [circuitNames, ht]
        rw [hcc, hcc2, ih]

theorem circuitNames_append (l1 l2 : List Element) :
    circuitNames (l1 ++ l2) = circuitNames l1 ++ circuitNames l2 := by
  simp [circuitNames]

theorem circuitNames_singleton_of (n : String) (c : Element)
    (hc : circNamedB n c = true) : circuitNames [c] = [n] := by
  have hand := (Bool.and_eq_true _ _).mp hc
  have ht : c.tag = "circuit" := by simpa using hand.left
  have hn : c.getAttr "name" = some n := by simpa using hand.right
  simp [circuitNames, ht, hn]

/-- The state a successful `copy_to_dst` ends in: destination root with the
first `final_name` circuit erased (a no-op when none exists) and the clone
appended. -/
def transferResult (st : TransferState) (n : String) (nn : Option String)
    (c : Element) : TransferState :=
  { st with dst := (st.dst.removeCircuit (finalNameOf n nn)).appendChild (cloneOf c nn) }

theorem transferResult_src (st : TransferState) (n : String) (nn : Option String)
    (c : Element) : (transferResult st n nn c).src = st.src := rfl

theorem transferResult_dst_tag (st : TransferState) (n : String) (nn : Option String)
    (c : Element) : (transferResult st n nn c).dst.tag = st.dst.tag := rfl

theorem transferResult_dst_attrs (st : TransferState) (n : String) (nn : Option String)
    (c : Element) : (transferResult st n nn c).dst.attrs = st.dst.attrs := rfl

theorem transferResult_dst_children (st : TransferState) (n : String) (nn : Option String)
    (c : Element) : (transferResult st n nn c).dst.children
      = st.dst.children.eraseP (circNamedB (finalNameOf n nn)) ++ [cloneOf c nn] := rfl

/-- Removing an absent circuit is a no-op. -/
theorem removeCircuit_eq_self (e : Element) (n : String)
    (h : e.children.find? (circNamedB n) = none) : e.removeCircuit n = e := by
  cases e with
  | mk t a ch =>
    simp only [Element.children] at h
    show Element.mk t a (ch.eraseP (circNamedB n)) = Element.mk t a ch
    rw [eraseP_eq_self_of_find?_none h]

/-- A successful source lookup pins down the absence of apostrophes in the
name and the match property of the returned element. -/
theorem findTopCircuit_ok_some (root : Element) (n : String) (c : Element)
    (h : findTopCircuit root n = .ok (some c)) :
    hasApos n = false ∧ root.children.find? (circNamedB n) = some c := by
  by_cases ha : hasApos n = true
  · rw [findTopCircuit, if_pos ha] at h
    exact absurd h (by simp)
  · have ha' : hasApos n = false := by
      cases hv : hasApos n
      · rfl
      · exact absurd hv ha
    rw [findTopCircuit, if_neg (by simp [ha'])] at h
    refine ⟨ha', ?_⟩
    simpa using h

/-- Evaluation of `copy_to_dst` when the source circuit is found and the
final name is predicate-safe: the destination root keeps its tag and
attributes, loses its first circuit named `final_name` (if any) and gains the
clone as last child; no exception is raised. -/
theorem copy_to_dst_eq_of_found (st : TransferState) (n : String) (nn : Option String)
    (c : Element) (hsrc : get_src_circuit st n = .ok (some c))
    (hfn : hasApos (finalNameOf n nn) = false) :
    copy_to_dst st n nn = (transferResult st n nn c, none) := by
  have hdst : findTopCircuit st.dst (finalNameOf n nn)
      = .ok (st.dst.children.find? (circNamedB (finalNameOf n nn))) := by
    rw [findTopCircuit, if_neg (by simp [hfn])]
  cases hfind : st.dst.children.find? (circNamedB (finalNameOf n nn)) with
  | some d =>
    simp only [copy_to_dst, hsrc, hdst, hfind, transferResult]
  | none =>
    have hrm : st.dst.removeCircuit (finalNameOf n nn) = st.dst :=
      removeCircuit_eq_self _ _ hfind
    simp only [copy_to_dst, hsrc, hdst, hfind, transferResult, hrm]

/-- Inversion: a call of `copy_to_dst` that raises no exception found a source
circuit, used an apostrophe-free final name, and produced exactly the
erase-then-append destination. -/
theorem copy_to_dst_ok_inv (st st1 : TransferState) (n : String) (nn : Option String)
    (h : copy_to_dst st n nn = (st1, none)) :
    ∃ c, get_src_circuit st n = .ok (some c)
      ∧ hasApos (finalNameOf n nn) = false
      ∧ circNamedB n c = true
      ∧ st1 = transferResult st n nn c := by
  cases hs : get_src_circuit st n with
  | error e =>
    rw [copy_to_dst, hs] at h
    exact absurd h (by simp)
  | ok o =>
    cases o with
    | none =>
      rw [copy_to_dst, hs] at h
      exact absurd h (by simp)
    | some c =>
      have hmatch := findTopCircuit_ok_some st.src n c hs
      have hc : circNamedB n c = true := List.find?_some hmatch.right
      cases hfn : hasApos (finalNameOf n nn) with
      | true =>
        simp only [copy_to_dst, hs, findTopCircuit, hfn, if_true] at h
        exact absurd (congrArg Prod.snd h) (by simp)
      | false =>
        rw [copy_to_dst_eq_of_found st n nn c hs hfn] at h
        refine ⟨c, rfl, rfl, hc, ?_⟩
        have hfst := congrArg Prod.fst h
        simpa using hfst.symm

/-- Evaluation of `findTopCircuit` on an apostrophe-free name. -/
theorem findTopCircuit_eval (root : Element) (n : String) (h : hasApos n = false) :
    findTopCircuit root n = .ok (root.children.find? (circNamedB n)) := by
  rw [findTopCircuit, if_neg (by simp [h])]

/-- `circNamedB` decoded into propositional form. -/
theorem circNamedB_eq_true_iff (n : String) (e : Element) :
    circNamedB n e = true ↔ (e.tag = "circuit" ∧ e.getAttr "name" = some n) := by
  simp [circNamedB]

/-- An element matching one name never matches a different one. -/
theorem circNamedB_false_of_other (n nn : String) (hne : nn ≠ n) (e : Element)
    (h : circNamedB nn e = true) : circNamedB n e = false := by
  have hname : e.getAttr "name" = some nn := ((circNamedB_eq_true_iff nn e).mp h).right
  cases hv : circNamedB n e
  · rfl
  · exact absurd (((circNamedB_eq_true_iff n e).mp hv).right.symm.trans hname)
      (by simp only [Option.some.injEq]; exact Ne.symm hne)

/-- Erasing the first match of a predicate incompatible with `pn` does not
change the `pn`-filtered sublist. -/
theorem filter_eraseP_of_incompat (pn pq : Element → Bool)
    (h : ∀ e, pq e = true → pn e = false) : ∀ l : List Element,
    (l.eraseP pq).filter pn = l.filter pn := by
  intro l
  induction l with
  | nil => rfl
  | cons c cs ih =>
    by_cases hq : pq c = true
    · rw [List.eraseP_cons_of_pos hq]
      have hpc : pn c = false := h c hq
      simp [List.filter_cons, hpc]
    · rw [List.eraseP_cons_of_neg hq]
      simp only [List.filter_cons, ih]

/-- When the source has no circuit of the requested name, `copy_to_dst`
raises `ValueError(f"Circuit '{name}' not found in source")` and, the raise
happening before the first mutation, returns the state untouched. -/
theorem copy_to_dst_eq_of_missing (st : TransferState) (n : String) (nn : Option String)
    (h : get_src_circuit st n = .ok none) :
    copy_to_dst st n nn = (st, some (.circuitNotFound n)) := by
  simp only [copy_to_dst, h]

/-- Every failing `copy_to_dst` call leaves the state untouched: in the
Python method both `raise` sites and the `SyntaxError` escape points precede
the `remove`/`append` mutations of `self.dst_root`. -/
theorem copy_to_dst_failure_state (st st2 : TransferState) (n : String)
    (nn : Option String) (e : TransferError)
    (h : copy_to_dst st n nn = (st2, some e)) : st2 = st := by
  cases hs : get_src_circuit st n with
  | error e0 =>
    rw [copy_to_dst, hs] at h
    exact (congrArg Prod.fst h).symm
  | ok o =>
    cases o with
    | none =>
      rw [copy_to_dst, hs] at h
      exact (congrArg Prod.fst h).symm
    | some c =>
      cases hfn : hasApos (finalNameOf n nn) with
      | true =>
        simp only [copy_to_dst, hs, findTopCircuit, hfn, if_true] at h
        exact (congrArg Prod.fst h).symm
      | false =>
        rw [copy_to_dst_eq_of_found st n nn c hs hfn] at h
        exact absurd (congrArg Prod.snd h) (by simp)

theorem elementExt (e1 e2 : Element) (ht : e1.tag = e2.tag)
    (ha : e1.attrs = e2.attrs) (hc : e1.children = e2.children) : e1 = e2 := by
  cases e1
  cases e2
  simp only [Element.tag, Element.attrs, Element.children] at ht ha hc
  rw [ht, ha, hc]

theorem stateExt (s1 s2 : TransferState) (h1 : s1.src = s2.src)
    (h2 : s1.dst = s2.dst) : s1 = s2 := by
  cases s1
  cases s2
  simp only at h1 h2
  rw [h1, h2]

/-! Concrete sample documents used to instantiate the theorems. -/

/-- A one-apostrophe string. -/
def aposStr : String := String.mk [apos]

/-- A small circuit named `A`. -/
def circA : Element := .mk "circuit" [("name", "A")] [.mk "wire" [("from", "a")] []]

/-- A circuit named `B`. -/
def circB : Element := .mk "circuit" [("name", "B")] []

/-- A circuit named `C`. -/
def circC : Element := .mk "circuit" [("name", "C")] []

/-- A source project holding circuits `A` and `B`. -/
def srcDoc : Element := .mk "project" [("source", "2.7.1")] [circA, circB]

/-- A destination project holding circuits `B` and `C`. -/
def dstBC : Element := .mk "project" [("source", "2.7.1")] [circB, circC]

/-- Source `{A, B}`, destination `{B, C}`. -/
def stBC : TransferState := ⟨srcDoc, dstBC⟩

/-- A destination project holding an old circuit `A` (payload marked `old`). -/
def dstA : Element := .mk "project" [] [.mk "circuit" [("name", "A"), ("old", "1")] []]

/-- Source `{A, B}`, destination `{A(old)}`. -/
def stRep : TransferState := ⟨srcDoc, dstA⟩

/-- A destination project with a non-circuit child whose `name` is `A`. -/
def libDoc : Element := .mk "project" [] [.mk "lib" [("desc", "#Wiring"), ("name", "A")] []]

/-- Source `{A, B}`, destination holding only the `lib` named `A`. -/
def stLib : TransferState := ⟨srcDoc, libDoc⟩

/-- A name containing an apostrophe that matches no circuit of `srcDoc`. -/
def badNameMissing : String := "Zz" ++ aposStr ++ "z"

/-- A name containing an apostrophe. -/
def badNamePresent : String := "A" ++ aposStr ++ "B"

/-- A project containing a circuit whose `name` attribute has an apostrophe. -/
def aposDoc : Element := .mk "project" [] [.mk "circuit" [("name", badNamePresent)] []]

/-- A malformed project with two circuits named `A`, to exercise the
first-match policy. -/
def dupDoc : Element :=
  .mk "project" [] [.mk "circuit" [("name", "A"), ("v", "1")] [],
    .mk "circuit" [("name", "A"), ("v", "2")] []]

/-! Claim theorems. -/

/-- C3: transferring a circuit whose name is absent from the destination
succeeds, preserves the source and the pre-existing destination children in
their relative order, and appends the clone as the last top-level child, so a
destination listing circuits `B, C` ends up listing exactly `B, C, A`. -/
theorem claim_c3_preservation (st : TransferState) (n : String) (c : Element)
    (hsrc : get_src_circuit st n = .ok (some c))
    (hdst : get_dst_circuit st n = .ok none) :
    (copy_to_dst st n none).snd = none
    ∧ ((copy_to_dst st n none).fst).dst.children = st.dst.children ++ [c]
    ∧ circuitNames (((copy_to_dst st n none).fst).dst.children)
        = circuitNames st.dst.children ++ [n]
    ∧ ((copy_to_dst st n none).fst).src = st.src := by
  have hmatch := findTopCircuit_ok_some st.src n c hsrc
  have hc : circNamedB n c = true := List.find?_some hmatch.right
  have hfn : hasApos (finalNameOf n none) = false := hmatch.left
  have hfind : st.dst.children.find? (circNamedB n) = none := by
    rw [get_dst_circuit, findTopCircuit_eval st.dst n hmatch.left] at hdst
    simpa using hdst
  rw [copy_to_dst_eq_of_found st n none c hsrc hfn]
  have hch : (transferResult st n none c).dst.children = st.dst.children ++ [c] := by
    rw [transferResult_dst_children]
    have : st.dst.children.eraseP (circNamedB (finalNameOf n none)) = st.dst.children := by
      show st.dst.children.eraseP (circNamedB n) = st.dst.children
      exact eraseP_eq_self_of_find?_none hfind
    rw [this]
    rfl
  refine ⟨rfl, hch, ?_, rfl⟩
  rw [hch, circuitNames_append, circuitNames_singleton_of n c hc]

/-- C3 witness: source `{A, B}`, destination `{B, C}`, transferring `A`. -/
theorem claim_c3_witness :
    (copy_to_dst stBC "A" none).snd = none
    ∧ ((copy_to_dst stBC "A" none).fst).dst.children = stBC.dst.children ++ [circA]
    ∧ circuitNames (((copy_to_dst stBC "A" none).fst).dst.children)
        = circuitNames stBC.dst.children ++ ["A"]
    ∧ ((copy_to_dst stBC "A" none).fst).src = stBC.src :=
  claim_c3_preservation stBC "A" circA rfl rfl

/-- C4: when both documents hold a circuit named `n`, the transfer succeeds
and afterwards the only circuit named `n` among the destination's top-level
children is exactly the source's circuit (payload `P2`, structurally equal
deep copy); nothing of the old payload `P1` survives, and the locator now
returns the new circuit. -/
theorem claim_c4_replacement (st : TransferState) (n : String) (c1 c2 : Element)
    (hnd : (circuitNames st.dst.children).Nodup)
    (hsrc : get_src_circuit st n = .ok (some c2))
    (hdst : get_dst_circuit st n = .ok (some c1)) :
    (copy_to_dst st n none).snd = none
    ∧ ((copy_to_dst st n none).fst).dst.children.filter (circNamedB n) = [c2]
    ∧ findTopCircuit ((copy_to_dst st n none).fst).dst n = .ok (some c2) := by
  have hmatch := findTopCircuit_ok_some st.src n c2 hsrc
  have hc : circNamedB n c2 = true := List.find?_some hmatch.right
  have hfn : hasApos (finalNameOf n none) = false := hmatch.left
  rw [copy_to_dst_eq_of_found st n none c2 hsrc hfn]
  have hch : (transferResult st n none c2).dst.children
      = st.dst.children.eraseP (circNamedB n) ++ [c2] := transferResult_dst_children st n none c2
  have hnotmem : n ∉ circuitNames (st.dst.children.eraseP (circNamedB n)) := by
    rw [circuitNames_eraseP]
    intro hmem
    exact absurd ((hnd.mem_erase_iff.mp hmem).left) (by simp)
  refine ⟨rfl, ?_, ?_⟩
  · rw [hch, List.filter_append, filter_circNamedB_eq_nil n _ hnotmem]
    simp [hc]
  · rw [findTopCircuit_eval _ n hmatch.left, hch, List.find?_append,
      find?_circNamedB_eq_none n _ hnotmem]
    simp [hc]

/-- C4 witness: source circuit `A` replaces the old destination circuit `A`. -/
theorem claim_c4_witness :
    (copy_to_dst stRep "A" none).snd = none
    ∧ ((copy_to_dst stRep "A" none).fst).dst.children.filter (circNamedB "A") = [circA]
    ∧ findTopCircuit ((copy_to_dst stRep "A" none).fst).dst "A" = .ok (some circA) :=
  claim_c4_replacement stRep "A" (.mk "circuit" [("name", "A"), ("old", "1")] []) circA
    (by decide) rfl rfl

/-- C6: a renaming transfer succeeds, leaves the whole source document (in
particular its circuit `n`) untouched, appends a clone whose `name` is the
new name `nn` and whose payload (children and all other attributes) is that
of the source circuit, removes at most the first destination circuit named
`nn` (never one named `n`), and adds no circuit named `n`. -/
theorem claim_c6_rename (st : TransferState) (n nn : String) (c : Element)
    (hsrc : get_src_circuit st n = .ok (some c))
    (hnn : hasApos nn = false) (hne : nn ≠ n) :
    (copy_to_dst st n (some nn)).snd = none
    ∧ ((copy_to_dst st n (some nn)).fst).src = st.src
    ∧ ((copy_to_dst st n (some nn)).fst).dst.children
        = st.dst.children.eraseP (circNamedB nn) ++ [c.set "name" nn]
    ∧ (c.set "name" nn).getAttr "name" = some nn
    ∧ (c.set "name" nn).children = c.children
    ∧ (∀ k, k ≠ "name" → (c.set "name" nn).getAttr k = c.getAttr k)
    ∧ ((copy_to_dst st n (some nn)).fst).dst.children.filter (circNamedB n)
        = st.dst.children.filter (circNamedB n) := by
  have hfn : hasApos (finalNameOf n (some nn)) = false := hnn
  rw [copy_to_dst_eq_of_found st n (some nn) c hsrc hfn]
  have hmatch := findTopCircuit_ok_some st.src n c hsrc
  have hc : circNamedB n c = true := List.find?_some hmatch.right
  have hclone : circNamedB nn (cloneOf c (some nn)) = true :=
    circNamedB_cloneOf n (some nn) c hc
  have hch : (transferResult st n (some nn) c).dst.children
      = st.dst.children.eraseP (circNamedB nn) ++ [c.set "name" nn] :=
    transferResult_dst_children st n (some nn) c
  refine ⟨rfl, rfl, hch, Element.getAttr_set_same c "name" nn,
    Element.children_set c "name" nn, ?_, ?_⟩
  · intro k hk
    exact Element.getAttr_set_ne c "name" nn k hk
  · rw [hch, List.filter_append]
    have hnc : circNamedB n (c.set "name" nn) = false :=
      circNamedB_false_of_other n nn hne _ hclone
    have hfilter : (st.dst.children.eraseP (circNamedB nn)).filter (circNamedB n)
        = st.dst.children.filter (circNamedB n) :=
      filter_eraseP_of_incompat (circNamedB n) (circNamedB nn)
        (fun e he => circNamedB_false_of_other n nn hne e he) st.dst.children
    rw [hfilter]
    simp [hnc]

/-- C6 witness: rename `A` to `A2` while transferring into `{B, C}`. -/
theorem claim_c6_witness :
    (copy_to_dst stBC "A" (some "A2")).snd = none
    ∧ ((copy_to_dst stBC "A" (some "A2")).fst).src = stBC.src
    ∧ ((copy_to_dst stBC "A" (some "A2")).fst).dst.children
        = stBC.dst.children.eraseP (circNamedB "A2") ++ [circA.set "name" "A2"]
    ∧ (circA.set "name" "A2").getAttr "name" = some "A2"
    ∧ (circA.set "name" "A2").children = circA.children
    ∧ (∀ k, k ≠ "name" → (circA.set "name" "A2").getAttr k = circA.getAttr k)
    ∧ ((copy_to_dst stBC "A" (some "A2")).fst).dst.children.filter (circNamedB "A")
        = stBC.dst.children.filter (circNamedB "A") :=
  claim_c6_rename stBC "A" "A2" circA rfl rfl (by decide)

/-- C2 counterexample: the name `Zz'z` resolves to no top-level circuit of
`srcDoc`, yet `copy_to_dst` fails with the `SyntaxError` escaping the XPath
predicate parser, not with the not-found `ValueError` naming the circuit
(the destination is still left unchanged). -/
theorem claim_c2_counterexample :
    resolves stBC.src badNameMissing = false
    ∧ copy_to_dst stBC badNameMissing none = (stBC, some TransferError.xpathError)
    ∧ TransferError.xpathError ≠ TransferError.circuitNotFound badNameMissing := by
  refine ⟨rfl, rfl, by simp⟩

/-- C2 (amended): for every name whose source lookup returns the not-found
signal (in particular every apostrophe-free name matching no top-level source
circuit), `copy_to_dst` fails with the not-found error carrying the requested
name and returns the state unchanged; moreover every failing call, whatever
the error, leaves the state unchanged, since both raise sites precede the
first mutation of the destination. -/
theorem claim_c2_not_found (st : TransferState) (n : String) (nn : Option String) :
    (get_src_circuit st n = .ok none →
      copy_to_dst st n nn = (st, some (TransferError.circuitNotFound n)))
    ∧ (∀ st2 e, copy_to_dst st n nn = (st2, some e) → st2 = st) := by
  constructor
  · intro hres
    exact copy_to_dst_eq_of_missing st n nn hres
  · intro st2 e h
    exact copy_to_dst_failure_state st st2 n nn e h

/-- C2 witness: transferring the absent `Zzz` fails with the not-found error
and leaves the state unchanged. -/
theorem claim_c2_witness :
    copy_to_dst stBC "Zzz" none = (stBC, some (TransferError.circuitNotFound "Zzz")) :=
  (claim_c2_not_found stBC "Zzz" none).left rfl

/-- C7 counterexample: on a document that even contains a circuit whose
`name` attribute is `A'B`, looking that name up raises (the embedded
`SyntaxError` of the XPath predicate parser) instead of returning the match
or a not-found signal. -/
theorem claim_c7_counterexample :
    resolves aposDoc badNamePresent = true
    ∧ findTopCircuit aposDoc badNamePresent = .error TransferError.xpathError :=
  ⟨rfl, rfl⟩

/-- C7 (amended): for every document and every apostrophe-free name, the
locator never raises: it returns either a not-found signal — exactly when no
top-level child is a `circuit` whose `name` attribute equals the string,
matching case-sensitively — or the first matching child in document order
(deterministically, even when duplicate names violate the uniqueness
invariant). -/
theorem claim_c7_locator (root : Element) (n : String) (h : hasApos n = false) :
    (∃ r, findTopCircuit root n = .ok r)
    ∧ (findTopCircuit root n = .ok none →
        ∀ c ∈ root.children, ¬(c.tag = "circuit" ∧ c.getAttr "name" = some n))
    ∧ (∀ c, findTopCircuit root n = .ok (some c) →
        (c.tag = "circuit" ∧ c.getAttr "name" = some n)
        ∧ ∃ pre post, root.children = pre ++ c :: post
            ∧ ∀ x ∈ pre, ¬(x.tag = "circuit" ∧ x.getAttr "name" = some n)) := by
  rw [findTopCircuit_eval root n h]
  refine ⟨⟨_, rfl⟩, ?_, ?_⟩
  · intro hnone c hcmem hcprop
    have hfind : root.children.find? (circNamedB n) = none := by simpa using hnone
    have := List.find?_eq_none.mp hfind c hcmem
    exact this ((circNamedB_eq_true_iff n c).mpr hcprop)
  · intro c hsome
    have hfind : root.children.find? (circNamedB n) = some c := by simpa using hsome
    have hprop := (circNamedB_eq_true_iff n c).mp (List.find?_some hfind)
    obtain ⟨hp, pre, post, happ, hall⟩ := List.find?_eq_some.mp hfind
    refine ⟨hprop, pre, post, happ, ?_⟩
    intro x hx hxprop
    have := hall x hx
    rw [(circNamedB_eq_true_iff n x).mpr hxprop] at this
    exact absurd this (by simp)

/-- C7 witness: the locator applied to a malformed document with two
circuits named `A` returns without raising. -/
theorem claim_c7_witness : ∃ r, findTopCircuit dupDoc "A" = .ok r :=
  (claim_c7_locator dupDoc "A" rfl).left

/-- C1 counterexample: both documents have unique top-level circuit names
(the destination has no circuit at all, only a `lib` child named `A`), the
transfer of `A` succeeds, and afterwards two top-level children of the
destination — the `lib` and the new circuit — share the `name` attribute
`A`. -/
theorem claim_c1_counterexample :
    (circuitNames stLib.src.children).Nodup
    ∧ (circuitNames stLib.dst.children).Nodup
    ∧ (copy_to_dst stLib "A" none).snd = none
    ∧ ¬ (childNames (((copy_to_dst stLib "A" none).fst).dst.children)).Nodup := by
  refine ⟨by decide, by decide, rfl, by decide⟩

/-- C1 (amended): uniqueness holds among the `circuit`-tagged top-level
children: if the top-level circuit names of source and destination are each
unique, then after any successful `copy_to_dst` and after any batch sequence
the destination's top-level circuit names are still unique (non-circuit
children such as `lib` entries are outside the engine's collision check). -/
theorem claim_c1_unique_names :
    (∀ (st st1 : TransferState) (n : String) (nn : Option String),
      (circuitNames st.src.children).Nodup → (circuitNames st.dst.children).Nodup →
      copy_to_dst st n nn = (st1, none) → (circuitNames st1.dst.children).Nodup)
    ∧ (∀ (st : TransferState) (ns : List String),
      (circuitNames st.src.children).Nodup → (circuitNames st.dst.children).Nodup →
      (circuitNames ((runBatch st ns).fst).dst.children).Nodup) := by
  have single : ∀ (st st1 : TransferState) (n : String) (nn : Option String),
      (circuitNames st.dst.children).Nodup →
      copy_to_dst st n nn = (st1, none) → (circuitNames st1.dst.children).Nodup := by
    intro st st1 n nn hnd h
    obtain ⟨c, hs, hfn, hc, hst1⟩ := copy_to_dst_ok_inv st st1 n nn h
    have hclone : circNamedB (finalNameOf n nn) (cloneOf c nn) = true :=
      circNamedB_cloneOf n nn c hc
    rw [hst1, transferResult_dst_children, circuitNames_append, circuitNames_eraseP,
      circuitNames_singleton_of _ _ hclone]
    rw [List.nodup_append]
    refine ⟨hnd.erase _, List.nodup_singleton _, ?_⟩
    intro a hmem hmem1
    rw [List.mem_singleton] at hmem1
    subst hmem1
    exact absurd (hnd.mem_erase_iff.mp hmem).left (by simp)
  refine ⟨fun st st1 n nn _ hnd h => single st st1 n nn hnd h, ?_⟩
  intro st ns hs hd
  induction ns generalizing st with
  | nil => simpa [runBatch] using hd
  | cons m ms ih =>
    show (circuitNames ((runBatch st (m :: ms)).fst).dst.children).Nodup
    rw [runBatch]
    cases hc : copy_to_dst st m none with
    | mk st1 oe =>
      cases oe with
      | none =>
        have hd1 : (circuitNames st1.dst.children).Nodup := single st st1 m none hd hc
        have hs1 : (circuitNames st1.src.children).Nodup := by
          obtain ⟨c, _, _, _, hst1⟩ := copy_to_dst_ok_inv st st1 m none hc
          rw [hst1, transferResult_src]
          exact hs
        exact ih st1 hs1 hd1
      | some e =>
        have : st1 = st := copy_to_dst_failure_state st st1 m none e hc
        subst this
        exact hd

/-- C1 witness: a concrete successful transfer and batch preserving circuit
name uniqueness. -/
theorem claim_c1_witness :
    (circuitNames (((copy_to_dst stRep "A" none).fst).dst.children)).Nodup
    ∧ (circuitNames ((runBatch stBC ["A", "B"]).fst).dst.children).Nodup :=
  ⟨claim_c1_unique_names.left stRep (copy_to_dst stRep "A" none).fst "A" none
      (by decide) (by decide) rfl,
    claim_c1_unique_names.right stBC ["A", "B"] (by decide) (by decide)⟩

/-- C5: with unique destination circuit names, a second `copy_to_dst` with
the same name is a no-op in effect: it succeeds and returns a destination
structurally equal to the one the first call produced. -/
theorem claim_c5_idempotent (st st1 : TransferState) (n : String)
    (hnd : (circuitNames st.dst.children).Nodup)
    (h1 : copy_to_dst st n none = (st1, none)) :
    copy_to_dst st1 n none = (st1, none) := by
  obtain ⟨c, hs, hfn, hc, hst1⟩ := copy_to_dst_ok_inv st st1 n none h1
  have hsrc1 : get_src_circuit st1 n = .ok (some c) := by
    rw [hst1]
    show findTopCircuit (transferResult st n none c).src n = .ok (some c)
    rw [transferResult_src]
    exact hs
  rw [copy_to_dst_eq_of_found st1 n none c hsrc1 hfn]
  have hch1 : st1.dst.children
      = st.dst.children.eraseP (circNamedB n) ++ [c] := by
    rw [hst1]
    exact transferResult_dst_children st n none c
  have hnotmem : n ∉ circuitNames (st.dst.children.eraseP (circNamedB n)) := by
    rw [circuitNames_eraseP]
    intro hmem
    exact absurd (hnd.mem_erase_iff.mp hmem).left (by simp)
  have hfind1 : (st.dst.children.eraseP (circNamedB n)).find? (circNamedB n) = none :=
    find?_circNamedB_eq_none n _ hnotmem
  have herase2 : st1.dst.children.eraseP (circNamedB n)
      = st.dst.children.eraseP (circNamedB n) := by
    rw [hch1, List.eraseP_append_right, List.eraseP_cons_of_pos hc]
    · simp
    · intro b hb
      simp only [Bool.not_eq_true]
      cases hv : circNamedB n b
      · rfl
      · exact absurd hv (fun hv2 => (List.find?_eq_none.mp hfind1 b hb) hv2)
  have hstate : transferResult st1 n none c = st1 := by
    apply stateExt
    · exact transferResult_src st1 n none c
    · apply elementExt
      · exact transferResult_dst_tag st1 n none c
      · exact transferResult_dst_attrs st1 n none c
      · rw [transferResult_dst_children]
        show st1.dst.children.eraseP (circNamedB n) ++ [c] = st1.dst.children
        rw [herase2, hch1]
  rw [hstate]

/-- C5 witness: transferring `A` into `{A(old)}` twice equals once. -/
theorem claim_c5_witness :
    copy_to_dst (copy_to_dst stRep "A" none).fst "A" none
      = ((copy_to_dst stRep "A" none).fst, none) :=
  claim_c5_idempotent stRep (copy_to_dst stRep "A" none).fst "A" (by decide) rfl

/-- C8: a batch over one state aborts on the first name whose source lookup
yields the not-found signal: the destination keeps exactly the effect of the
earlier successful transfers (state `st1`), none of the later names are
applied, and the surfaced error carries the failing name. -/
theorem claim_c8_batch (st st1 : TransferState) (pre rest : List String) (bad : String)
    (hpre : runBatch st pre = (st1, none))
    (hbad : get_src_circuit st1 bad = .ok none) :
    runBatch st (pre ++ bad :: rest) = (st1, some (TransferError.circuitNotFound bad)) := by
  induction pre generalizing st with
  | nil =>
    have hst : st = st1 := by
      have := congrArg Prod.fst hpre
      simpa [runBatch] using this
    subst hst
    rw [List.nil_append, runBatch, copy_to_dst_eq_of_missing st bad none hbad]
  | cons m ms ih =>
    rw [List.cons_append, runBatch]
    rw [runBatch] at hpre
    cases hc : copy_to_dst st m none with
    | mk st2 oe =>
      rw [hc] at hpre
      cases oe with
      | none => exact ih st2 hpre
      | some e => exact absurd (congrArg Prod.snd hpre) (by simp)

/-- C8 witness: the batch `["A", "Zzz", "B"]` over source `{A, B}` and
destination `{B, C}` stops at `Zzz` with its name in the error, keeping only
the effect of `A`. -/
theorem claim_c8_witness :
    runBatch stBC ["A", "Zzz", "B"]
      = ((runBatch stBC ["A"]).fst, some (TransferError.circuitNotFound "Zzz")) := by
  have h := claim_c8_batch stBC (runBatch stBC ["A"]).fst ["A"] ["B"] "Zzz" rfl rfl
  simpa using h

/-!
Node-identity model for `copy.deepcopy`.  CPython object identity is made
explicit: `NElement` is an XML element tree whose every node carries an
identity tag `nid`.  `copy.deepcopy` returns a structurally equal tree all of
whose nodes are fresh objects; `deepcopyE k` models this by rebuilding the
tree with fresh identities drawn from the counter `k` upward.  Sharing a
mutable node with the original is sharing an identity, so clone/source
independence is identity-disjointness.
-/

mutual
inductive NElement : Type where
  | mk (nid : Nat) (tag : String) (attrs : List (String × String)) (children : NForest)
inductive NForest : Type where
  | nil : NForest
  | cons : NElement → NForest → NForest
end

mutual
def deepcopyE (k : Nat) : NElement → NElement × Nat
  | .mk _ t a cs =>
    let r := deepcopyF (k + 1) cs
    (.mk k t a r.fst, r.snd)
def deepcopyF (k : Nat) : NForest → NForest × Nat
  | .nil => (.nil, k)
  | .cons c cs =>
    let r1 := deepcopyE k c
    let r2 := deepcopyF r1.snd cs
    (.cons r1.fst r2.fst, r2.snd)
end

mutual
def stripE : NElement → Element
  | .mk _ t a cs => .mk t a (stripF cs)
def stripF : NForest → List Element
  | .nil => []
  | .cons c cs => stripE c :: stripF cs
end

mutual
def idsE : NElement → List Nat
  | .mk i _ _ cs => i :: idsF cs
def idsF : NForest → List Nat
  | .nil => []
  | .cons c cs => idsE c ++ idsF cs
end

mutual
theorem deepcopyE_counter_le (k : Nat) (e : NElement) : k ≤ (deepcopyE k e).snd := by
  cases e with
  | mk i t a cs =>
    have h := deepcopyF_counter_le (k + 1) cs
    exact Nat.le_trans (Nat.le_succ k) h
theorem deepcopyF_counter_le (k : Nat) (f : NForest) : k ≤ (deepcopyF k f).snd := by
  cases f with
  | nil => exact Nat.le_refl k
  | cons c cs =>
    have h1 := deepcopyE_counter_le k c
    have h2 := deepcopyF_counter_le (deepcopyE k c).snd cs
    exact Nat.le_trans h1 h2
end

mutual
theorem deepcopyE_strip (k : Nat) (e : NElement) :
    stripE (deepcopyE k e).fst = stripE e := by
  cases e with
  | mk i t a cs =>
    show Element.mk t a (stripF (deepcopyF (k + 1) cs).fst) = Element.mk t a (stripF cs)
    rw [deepcopyF_strip (k + 1) cs]
theorem deepcopyF_strip (k : Nat) (f : NForest) :
    stripF (deepcopyF k f).fst = stripF f := by
  cases f with
  | nil => rfl
  | cons c cs =>
    show stripE (deepcopyE k c).fst :: stripF (deepcopyF (deepcopyE k c).snd cs).fst
      = stripE c :: stripF cs
    rw [deepcopyE_strip k c, deepcopyF_strip (deepcopyE k c).snd cs]
end

mutual
theorem deepcopyE_ids_ge (k : Nat) (e : NElement) :
    ∀ i ∈ idsE (deepcopyE k e).fst, k ≤ i := by
  cases e with
  | mk i0 t a cs =>
    intro i hi
    have hi2 : i ∈ k :: idsF (deepcopyF (k + 1) cs).fst := hi
    rcases List.mem_cons.mp hi2 with h | h
    · exact h ▸ Nat.le_refl k
    · exact Nat.le_trans (Nat.le_succ k) (deepcopyF_ids_ge (k + 1) cs i h)
theorem deepcopyF_ids_ge (k : Nat) (f : NForest) :
    ∀ i ∈ idsF (deepcopyF k f).fst, k ≤ i := by
  cases f with
  | nil => intro i hi; exact absurd hi (by simp [deepcopyF, idsF])
  | cons c cs =>
    intro i hi
    have hi2 : i ∈ idsE (deepcopyE k c).fst ++ idsF (deepcopyF (deepcopyE k c).snd cs).fst := hi
    rcases List.mem_append.mp hi2 with h | h
    · exact deepcopyE_ids_ge k c i h
    · exact Nat.le_trans (deepcopyE_counter_le k c)
        (deepcopyF_ids_ge (deepcopyE k c).snd cs i h)
end

/-- C9: (i) `copy_to_dst` never changes the source document, whether it
succeeds or fails; (ii) the deep copy is structurally equal to the original;
(iii) drawing the copy's node identities above every identity of the source
tree, the clone shares no node with the source, so a later mutation of one
tree cannot be observed in the other. -/
theorem claim_c9_independence :
    (∀ (st : TransferState) (n : String) (nn : Option String),
      ((copy_to_dst st n nn).fst).src = st.src)
    ∧ (∀ (k : Nat) (e : NElement), stripE (deepcopyE k e).fst = stripE e)
    ∧ (∀ (k : Nat) (esrc e : NElement), (∀ i ∈ idsE esrc, i < k) →
        ∀ j ∈ idsE (deepcopyE k e).fst, j ∉ idsE esrc) := by
  refine ⟨?_, fun k e => deepcopyE_strip k e, ?_⟩
  · intro st n nn
    cases hr : copy_to_dst st n nn with
    | mk st1 oe =>
      show st1.src = st.src
      cases oe with
      | none =>
        obtain ⟨c, _, _, _, hst1⟩ := copy_to_dst_ok_inv st st1 n nn hr
        rw [hst1]
        exact transferResult_src st n nn c
      | some e =>
        rw [copy_to_dst_failure_state st st1 n nn e hr]
  · intro k esrc e hlt j hj hmem
    exact absurd (deepcopyE_ids_ge k e j hj) (Nat.not_le_of_lt (hlt j hmem))

/-- An identity-tagged sample circuit. -/
def nSample : NElement :=
  .mk 0 "circuit" [("name", "A")] (.cons (.mk 1 "wire" [("from", "a")] .nil) .nil)

/-- C9 witness: a concrete transfer preserving the source, and a concrete
deep copy (fresh identities from 5) equal in structure and sharing no node
identity with `nSample`. -/
theorem claim_c9_witness :
    ((copy_to_dst stBC "A" none).fst).src = stBC.src
    ∧ stripE (deepcopyE 5 nSample).fst = stripE nSample
    ∧ (5 : Nat) ∉ idsE nSample :=
  ⟨claim_c9_independence.left stBC "A" none,
    claim_c9_independence.right.left 5 nSample,
    claim_c9_independence.right.right 5 nSample nSample (by decide) 5 (by decide)⟩

/-!
Path sanitisation and `save`.  The `os.path` facts `_sanitize_path` consults
are abstracted into a `FileSystem` record (which paths exist, which are
regular files, and absolute-path resolution); the string manipulation
(`strip` chains) is embedded exactly.  The write performed by
`self.dst_tree.write(path, ...)` is recorded as a `WriteAction` value.
-/

/-- The filesystem facts consulted by `_sanitize_path`. -/
structure FileSystem where
  pathExists : String → Bool
  pathIsFile : String → Bool
  abspath : String → String

/-- Drop the characters satisfying `p` from both ends of a character list
(Python `str.strip` semantics for a fixed character class). -/
def dropEndsWhile (p : Char → Bool) (s : List Char) : List Char :=
  ((s.dropWhile p).reverse.dropWhile p).reverse

/-- `path.strip().strip("'").strip('"')`. -/
def strippedOf (path : String) : String :=
  String.mk (dropEndsWhile (fun c => c == dquote)
    (dropEndsWhile (fun c => c == apos)
      (dropEndsWhile (fun c => c.isWhitespace) path.data)))

/-- The cleaned path `os.path.abspath(path.strip().strip("'").strip('"'))`. -/
def cleanedPath (fs : FileSystem) (path : String) : String :=
  fs.abspath (strippedOf path)

/-- The exceptions of `_sanitize_path` and `save`, one constructor per raise
site: `TypeError("Path must be a string. Seriously.")`,
`FileNotFoundError(f"Path does not exist: {cleaned}")`,
`ValueError(f"Path is not a file: {cleaned}")`, and the guard
`ValueError("Must specify output path for destination file")`. -/
inductive PathError : Type where
  | typeError : PathError
  | fileNotFoundError (msg : String) : PathError
  | notAFileError (msg : String) : PathError
  | missingOutputError : PathError
deriving DecidableEq

/-- `_sanitize_path`: a non-string argument (modelled by `none`, covering the
`None` default of `save`) raises `TypeError`; otherwise the stripped,
absolutised path must exist and be a regular file. -/
def sanitize_path (fs : FileSystem) : Option String → Except PathError String
  | none => .error .typeError
  | some path =>
    let cleaned := cleanedPath fs path
    if fs.pathExists cleaned = false then
      .error (.fileNotFoundError ("Path does not exist: " ++ cleaned))
    else if fs.pathIsFile cleaned = false then
      .error (.notAFileError ("Path is not a file: " ++ cleaned))
    else
      .ok cleaned

/-- The filesystem write of `save`, as data. -/
structure WriteAction where
  path : String
  doc : Element

/-- `save(out_path)`: `out_path = self._sanitize_path(out_path)`, then
`path = out_path`, the `if path is None` guard, and the tree write of
`self.dst_tree` to `path`. -/
def save (fs : FileSystem) (st : TransferState) (out_path : Option String) :
    Except PathError WriteAction :=
  match sanitize_path fs out_path with
  | .error e => .error e
  | .ok sanitized =>
    let path : Option String := some sanitized
    match path with
    | none => .error .missingOutputError
    | some p => .ok ⟨p, st.dst⟩

/-- C10: `save` succeeds only on a path that already names an existing
regular file: `None` raises the `TypeError` of `_sanitize_path` before the
`Must specify output path` guard can run, a cleaned path that does not exist
raises `FileNotFoundError`, an existing non-file raises the
`Path is not a file` `ValueError`, every successful save wrote the
destination tree to an existing regular file, and the explicit
`Must specify output path` guard is unreachable. -/
theorem claim_c10_save (fs : FileSystem) (st : TransferState) :
    save fs st none = .error PathError.typeError
    ∧ (∀ p, fs.pathExists (cleanedPath fs p) = false →
        save fs st (some p)
          = .error (.fileNotFoundError ("Path does not exist: " ++ cleanedPath fs p)))
    ∧ (∀ p, fs.pathExists (cleanedPath fs p) = true →
        fs.pathIsFile (cleanedPath fs p) = false →
        save fs st (some p)
          = .error (.notAFileError ("Path is not a file: " ++ cleanedPath fs p)))
    ∧ (∀ op w, save fs st op = .ok w →
        fs.pathExists w.path = true ∧ fs.pathIsFile w.path = true ∧ w.doc = st.dst)
    ∧ (∀ op, save fs st op ≠ .error PathError.missingOutputError) := by
  have hsome : ∀ p, sanitize_path fs (some p) =
      (if fs.pathExists (cleanedPath fs p) = false then
        .error (.fileNotFoundError ("Path does not exist: " ++ cleanedPath fs p))
      else if fs.pathIsFile (cleanedPath fs p) = false then
        .error (.notAFileError ("Path is not a file: " ++ cleanedPath fs p))
      else .ok (cleanedPath fs p)) := fun p => rfl
  refine ⟨rfl, ?_, ?_, ?_, ?_⟩
  · intro p hex
    rw [save, hsome p, if_pos hex]
  · intro p hex hif
    rw [save, hsome p, if_neg (by simp [hex]), if_pos hif]
  · intro op w h
    cases op with
    | none => exact absurd h (by rw [save]; simp [sanitize_path])
    | some p =>
      by_cases hex : fs.pathExists (cleanedPath fs p) = false
      · rw [save, hsome p, if_pos hex] at h
        exact absurd h (by simp)
      · by_cases hif : fs.pathIsFile (cleanedPath fs p) = false
        · rw [save, hsome p, if_neg hex, if_pos hif] at h
          exact absurd h (by simp)
        · rw [save, hsome p, if_neg hex, if_neg hif] at h
          have hw : w = ⟨cleanedPath fs p, st.dst⟩ := by
            have := h
            simp only [Except.ok.injEq] at this
            exact this.symm
          subst hw
          exact ⟨Bool.not_eq_false _ ▸ Bool.of_not_eq_false hex,
            Bool.of_not_eq_false hif, rfl⟩
  · intro op
    cases op with
    | none => rw [save]; simp [sanitize_path]
    | some p =>
      by_cases hex : fs.pathExists (cleanedPath fs p) = false
      · rw [save, hsome p, if_pos hex]; simp
      · by_cases hif : fs.pathIsFile (cleanedPath fs p) = false
        · rw [save, hsome p, if_neg hex, if_pos hif]; simp
        · rw [save, hsome p, if_neg hex, if_neg hif]; simp

/-- A sample filesystem: `out.circ` is an existing regular file, `somedir`
exists but is not a regular file, nothing else exists; absolute-path
resolution is the identity. -/
def fsSample : FileSystem :=
  ⟨fun s => s == "out.circ" || s == "somedir", fun s => s == "out.circ", fun s => s⟩

/-- C10 witness: each branch of the save contract at a concrete filesystem. -/
theorem claim_c10_witness :
    save fsSample stBC none = .error PathError.typeError
    ∧ save fsSample stBC (some "missing")
        = .error (.fileNotFoundError ("Path does not exist: " ++ cleanedPath fsSample "missing"))
    ∧ save fsSample stBC (some "somedir")
        = .error (.notAFileError ("Path is not a file: " ++ cleanedPath fsSample "somedir"))
    ∧ (fsSample.pathExists "out.circ" = true ∧ fsSample.pathIsFile "out.circ" = true
        ∧ (WriteAction.mk "out.circ" stBC.dst).doc = stBC.dst)
    ∧ save fsSample stBC (some "out.circ") ≠ .error PathError.missingOutputError :=
  ⟨(claim_c10_save fsSample stBC).left,
    (claim_c10_save fsSample stBC).right.left "missing" (by decide),
    (claim_c10_save fsSample stBC).right.right.left "somedir" (by decide) (by decide),
    (claim_c10_save fsSample stBC).right.right.right.left (some "out.circ")
      (WriteAction.mk "out.circ" stBC.dst) (by rfl),
    (claim_c10_save fsSample stBC).right.right.right.right (some "out.circ")⟩

end LIP
